import Mathlib

/-!
Verification of the cryptographic core of the AI--Benchmark repository.

Shallow embedding of the two Rust source files
`medical_device_encryption.rs` and `AdvancedMathematicalFramework.rs`.
Machine integers (`u8`, `u32`, `u64`) are modelled as `Nat` with explicit
reductions `% 2^8`, `% 2^32`, `% 2^64` at the points where the Rust code
wraps; byte sequences are `List Nat`; fallible operations return
`Except`/`Option`; the per-device registry is an association list with
HashMap `insert`-replaces semantics.
-/

set_option maxRecDepth 4096

namespace MedCrypto

/-- `u32::rotate_left` for values below `2^32`: `(x <<< n) % 2^32 ||| x >>> (32-n)`. -/
def rotl32 (x n : Nat) : Nat :=
  ((x <<< n) % 2 ^ 32) ||| (x >>> (32 - n))

/-- `u8` rotate-left by `n` (used by the S-box generator) for values below `256`. -/
def rotl8 (x n : Nat) : Nat :=
  ((x <<< n) % 2 ^ 8) ||| (x >>> (8 - n))

/-- `u32::from_be_bytes` of the four bytes of `l` starting at index `i`
(out-of-range bytes read as `0`, mirroring the zero-initialised buffers). -/
def beWordAt (l : List Nat) (i : Nat) : Nat :=
  (l.getD i 0) * 2 ^ 24 + (l.getD (i + 1) 0) * 2 ^ 16 +
    (l.getD (i + 2) 0) * 2 ^ 8 + l.getD (i + 3) 0

/-- `u32::from_le_bytes` of the four bytes of `l` starting at index `i`. -/
def leWordAt (l : List Nat) (i : Nat) : Nat :=
  (l.getD i 0) + (l.getD (i + 1) 0) * 2 ^ 8 +
    (l.getD (i + 2) 0) * 2 ^ 16 + (l.getD (i + 3) 0) * 2 ^ 24

/-- `u32::to_be_bytes`. -/
def beBytes4 (w : Nat) : List Nat :=
  [w / 2 ^ 24 % 256, w / 2 ^ 16 % 256, w / 2 ^ 8 % 256, w % 256]

/-- `u64::to_be_bytes`. -/
def beBytes8 (w : Nat) : List Nat :=
  [w / 2 ^ 56 % 256, w / 2 ^ 48 % 256, w / 2 ^ 40 % 256, w / 2 ^ 32 % 256,
   w / 2 ^ 24 % 256, w / 2 ^ 16 % 256, w / 2 ^ 8 % 256, w % 256]

/-- `u32::to_le_bytes`. -/
def leBytes4 (w : Nat) : List Nat :=
  [w % 256, w / 2 ^ 8 % 256, w / 2 ^ 16 % 256, w / 2 ^ 24 % 256]

/-! ## Hash Engine (`MedicalHashProcessor`, SHA-1-shaped Merkle–Damgård) -/

/-- Internal state of `MedicalHashProcessor`: 5 state words, the filled
prefix of the 64-byte block buffer (its length is `buffer_position`),
and the `u64` message-length counter in bytes. -/
structure MedicalHashProcessor where
  state : List Nat
  buffer : List Nat
  message_length : Nat
deriving DecidableEq

/-- The fixed initial state installed by `MedicalHashProcessor::new` / `reset`. -/
def hashInitWords : List Nat :=
  [0x67452301, 0xEFCDAB89, 0x98BADCFE, 0x10325476, 0xC3D2E1F0]

/-- `MedicalHashProcessor::new()` (identical to `reset()`). -/
def MedicalHashProcessor.reset : MedicalHashProcessor :=
  ⟨hashInitWords, [], 0⟩

/-- Word expansion of `process_block`: the 16 big-endian words of the buffer
extended to 80 words via `w[i] = rotl(w[i-3]^w[i-8]^w[i-14]^w[i-16], 1)`. -/
def expandW (block : List Nat) : List Nat :=
  (List.range 80).foldl
    (fun w i =>
      if i < 16 then w ++ [beWordAt block (i * 4)]
      else w ++ [rotl32 ((w.getD (i - 3) 0) ^^^ (w.getD (i - 8) 0) ^^^
                          (w.getD (i - 14) 0) ^^^ (w.getD (i - 16) 0)) 1]) []

/-- One of the 80 rounds of the compression main loop: the 5-register
shuffle with the round-dependent boolean function and additive constant. -/
def sha1Step (w : List Nat) (regs : Nat × Nat × Nat × Nat × Nat) (i : Nat) :
    Nat × Nat × Nat × Nat × Nat :=
  let (a, b, c, d, e) := regs
  let f :=
    if i ≤ 19 then (b &&& c) ||| ((b ^^^ 0xFFFFFFFF) &&& d)
    else if i ≤ 39 then b ^^^ c ^^^ d
    else if i ≤ 59 then (b &&& c) ||| (b &&& d) ||| (c &&& d)
    else b ^^^ c ^^^ d
  let k :=
    if i ≤ 19 then 0x5A827999
    else if i ≤ 39 then 0x6ED9EBA1
    else if i ≤ 59 then 0x8F1BBCDC
    else 0xCA62C1D6
  let temp := (rotl32 a 5 + f + e + k + w.getD i 0) % 2 ^ 32
  (temp, a, rotl32 b 30, c, d)

/-- `MedicalHashProcessor::process_block` as a pure compression function on
the 5 state words and a 64-byte block. -/
def processBlock (st : List Nat) (block : List Nat) : List Nat :=
  let w := expandW block
  let init := (st.getD 0 0, st.getD 1 0, st.getD 2 0, st.getD 3 0, st.getD 4 0)
  let res := (List.range 80).foldl (sha1Step w) init
  [(st.getD 0 0 + res.1) % 2 ^ 32,
   (st.getD 1 0 + res.2.1) % 2 ^ 32,
   (st.getD 2 0 + res.2.2.1) % 2 ^ 32,
   (st.getD 3 0 + res.2.2.2.1) % 2 ^ 32,
   (st.getD 4 0 + res.2.2.2.2) % 2 ^ 32]

/-- One iteration of the byte loop of `update`: push the byte; when the
buffer fills to 64 bytes, compress and clear it. -/
def MedicalHashProcessor.updateByte (h : MedicalHashProcessor) (b : Nat) :
    MedicalHashProcessor :=
  let buf := h.buffer ++ [b]
  if buf.length = 64 then ⟨processBlock h.state buf, [], h.message_length⟩
  else ⟨h.state, buf, h.message_length⟩

/-- `MedicalHashProcessor::update`: add `data.len()` to the `u64` byte
counter and feed the bytes one at a time. -/
def MedicalHashProcessor.update (h : MedicalHashProcessor) (data : List Nat) :
    MedicalHashProcessor :=
  let h' := data.foldl MedicalHashProcessor.updateByte h
  ⟨h'.state, h'.buffer, (h.message_length + data.length) % 2 ^ 64⟩

/-- The 5 state words serialized big-endian: the 20-byte digest extraction
at the end of `finalize`. -/
def digestOf (st : List Nat) : List Nat :=
  beBytes4 (st.getD 0 0) ++ beBytes4 (st.getD 1 0) ++ beBytes4 (st.getD 2 0) ++
    beBytes4 (st.getD 3 0) ++ beBytes4 (st.getD 4 0)

/-- The branch condition of `finalize`: after appending the `0x80` byte the
buffer position exceeds 56, so an extra compression is run before the
length bytes are placed (this is the literal `self.buffer_position > 56`
test of the source). -/
def finalizeExtraCompression (h : MedicalHashProcessor) : Bool :=
  56 < (h.buffer ++ [0x80]).length

/-- `MedicalHashProcessor::finalize`: append `0x80`; if the position is now
past 56, zero-fill to 64 and compress; zero-fill to 56; append the 64-bit
bit length (`message_length * 8`, wrapping `u64`) big-endian; compress;
extract the digest. -/
def MedicalHashProcessor.finalize (h : MedicalHashProcessor) : List Nat :=
  let buf1 := h.buffer ++ [0x80]
  let st1 := if finalizeExtraCompression h then
      processBlock h.state (buf1 ++ List.replicate (64 - buf1.length) 0)
    else h.state
  let buf2 := if finalizeExtraCompression h then ([] : List Nat) else buf1
  let buf3 := buf2 ++ List.replicate (56 - buf2.length) 0
  let bitLength := (h.message_length * 8) % 2 ^ 64
  digestOf (processBlock st1 (buf3 ++ beBytes8 bitLength))

/-- `compute_medical_hash` / the KDF's per-iteration hash: reset, update
with the data, finalize. -/
def medicalHash (data : List Nat) : List Nat :=
  (MedicalHashProcessor.reset.update data).finalize

/-! ## Key Derivation Function -/

/-- The constant `b"MedicalDeviceSalt"` of `initialize_salt`. -/
def base_salt : List Nat := "MedicalDeviceSalt".data.map Char.toNat

/-- `KeyDerivationFunction::initialize_salt`: copy `base_salt` into the
prefix of the 16-byte `salt` field. `self.salt[..base_salt.len()]` panics
when `base_salt.len()` exceeds the field length, which we model as `none`;
on success the result is the constant followed by the untouched suffix. -/
def init_salt (salt : List Nat) : Option (List Nat) :=
  if base_salt.length ≤ salt.length then
    some (base_salt ++ salt.drop base_salt.length)
  else none

/-- The extension loop of `derive_patient_key` (`for i in
(input.len()..PATIENT_KEY_SIZE).step_by(DIGEST_OUTPUT_SIZE)`): each step
hashes `input ‖ [i as u8]` and copies `min(digest.len(), 32 - i)` bytes. -/
def kdfExtendLoop (input : List Nat) (i : Nat) : List Nat :=
  if _h : i < 32 then
    let digest := ((MedicalHashProcessor.reset.update input).update [i % 256]).finalize
    let copyLen := min digest.length (32 - i)
    digest.take copyLen ++ kdfExtendLoop input (i + 20)
  else []
termination_by 32 - i

/-- The iterated-hashing loop of `derive_patient_key`. -/
def kdfIterate : Nat → List Nat → List Nat
  | 0, input => input
  | n + 1, input => kdfIterate n (medicalHash input)

/-- `KeyDerivationFunction::derive_patient_key` with the `salt` and
`iteration_count` fields as explicit parameters: seed with
`salt ‖ device_id ‖ patient_id`, hash iteratively, truncate to 32 bytes or
extend with the counter-byte loop. -/
def derive_patient_key (salt : List Nat) (iteration_count : Nat)
    (device_id patient_id : List Nat) : List Nat :=
  let input := kdfIterate iteration_count (salt ++ device_id ++ patient_id)
  if 32 ≤ input.length then input.take 32
  else input ++ kdfExtendLoop input input.length

/-! ## Stream Cipher Engine (`CompactStreamCipher`, ARX / ChaCha-shaped) -/

/-- State of `CompactStreamCipher`: the 16 32-bit state words, the 64-byte
keystream buffer, and the buffer cursor. (The write-only
`initialization_vector` field of the Rust struct is never read and is
omitted.) -/
structure CompactStreamCipher where
  internal_state : List Nat
  keystream_buffer : List Nat
  buffer_position : Nat
deriving DecidableEq

/-- `CompactStreamCipher::new()`: zeroed state, `buffer_position = 64` to
force generation on the first byte. -/
def CompactStreamCipher.new : CompactStreamCipher :=
  ⟨List.replicate 16 0, List.replicate 64 0, 64⟩

/-- `CompactStreamCipher::initialize`: constants into words 0–3; key words
(little-endian) into 4–11 where the key is long enough (stale words are
kept otherwise, as in the source); counter words 12–13 zeroed; IV words
into 14–15 when the IV has at least 8 bytes; cursor forced to 64. -/
def CompactStreamCipher.init (c : CompactStreamCipher) (key iv : List Nat) :
    CompactStreamCipher :=
  let ws := List.ofFn (fun j : Fin 16 =>
    let i := (j : Nat)
    if i = 0 then 0x61707865
    else if i = 1 then 0x3320646e
    else if i = 2 then 0x79622d32
    else if i = 3 then 0x6b206574
    else if i < 12 then
      (if (i - 4) * 4 + 3 < key.length then leWordAt key ((i - 4) * 4)
       else c.internal_state.getD i 0)
    else if i < 14 then 0
    else if 8 ≤ iv.length then leWordAt iv ((i - 14) * 4)
    else c.internal_state.getD i 0)
  ⟨ws, c.keystream_buffer, 64⟩

/-- `CompactStreamCipher::quarter_round` on the 16-word working state. -/
def quarterRound (st : List Nat) (a b c d : Nat) : List Nat :=
  let st := st.set a ((st.getD a 0 + st.getD b 0) % 2 ^ 32)
  let st := st.set d (st.getD d 0 ^^^ st.getD a 0)
  let st := st.set d (rotl32 (st.getD d 0) 16)
  let st := st.set c ((st.getD c 0 + st.getD d 0) % 2 ^ 32)
  let st := st.set b (st.getD b 0 ^^^ st.getD c 0)
  let st := st.set b (rotl32 (st.getD b 0) 12)
  let st := st.set a ((st.getD a 0 + st.getD b 0) % 2 ^ 32)
  let st := st.set d (st.getD d 0 ^^^ st.getD a 0)
  let st := st.set d (rotl32 (st.getD d 0) 8)
  let st := st.set c ((st.getD c 0 + st.getD d 0) % 2 ^ 32)
  let st := st.set b (st.getD b 0 ^^^ st.getD c 0)
  st.set b (rotl32 (st.getD b 0) 7)

/-- One double round: four column quarter-rounds then four diagonal ones. -/
def doubleRound (st : List Nat) : List Nat :=
  let st := quarterRound st 0 4 8 12
  let st := quarterRound st 1 5 9 13
  let st := quarterRound st 2 6 10 14
  let st := quarterRound st 3 7 11 15
  let st := quarterRound st 0 5 10 15
  let st := quarterRound st 1 6 11 12
  let st := quarterRound st 2 7 8 13
  quarterRound st 3 4 9 14

/-- Iterate `n` double rounds. -/
def doubleRounds : Nat → List Nat → List Nat
  | 0, st => st
  | n + 1, st => doubleRounds n (doubleRound st)

/-- The 64 keystream bytes produced from the current state words:
10 double rounds, word-wise addition of the original state, little-endian
byte serialization. -/
def chachaBlockBytes (ws : List Nat) : List Nat :=
  let working := doubleRounds 10 ws
  (List.range 16).foldl
    (fun acc i => acc ++ leBytes4 ((working.getD i 0 + ws.getD i 0) % 2 ^ 32)) []

/-- The counter increment at the end of `generate_keystream_block`: word 12
wraps, with carry into word 13. -/
def incrCounter (ws : List Nat) : List Nat :=
  let lo := (ws.getD 12 0 + 1) % 2 ^ 32
  let ws := ws.set 12 lo
  if lo = 0 then ws.set 13 ((ws.getD 13 0 + 1) % 2 ^ 32) else ws

/-- `CompactStreamCipher::generate_keystream_block`. -/
def CompactStreamCipher.generateBlock (c : CompactStreamCipher) :
    CompactStreamCipher :=
  ⟨incrCounter c.internal_state, chachaBlockBytes c.internal_state, 0⟩

/-- `CompactStreamCipher::next_byte`: refill via `generate_keystream_block`
when the cursor reaches 64, then return the byte under the cursor and
advance it. -/
def CompactStreamCipher.nextByte (c : CompactStreamCipher) :
    Nat × CompactStreamCipher :=
  let c := if 64 ≤ c.buffer_position then c.generateBlock else c
  (c.keystream_buffer.getD c.buffer_position 0,
   ⟨c.internal_state, c.keystream_buffer, c.buffer_position + 1⟩)

/-- The first `n` bytes emitted by repeated `next_byte` calls. -/
def keystream (c : CompactStreamCipher) : Nat → List Nat
  | 0 => []
  | n + 1 => c.nextByte.1 :: keystream c.nextByte.2 n

/-- The per-byte XOR loop of `encrypt_with_stream_cipher`, returning the
ciphertext bytes and the cipher state left behind. -/
def xorKeystream (c : CompactStreamCipher) : List Nat → List Nat × CompactStreamCipher
  | [] => ([], c)
  | b :: rest =>
    let r := xorKeystream c.nextByte.2 rest
    ((b ^^^ c.nextByte.1) :: r.1, r.2)

/-- `MedicalSecurityModule::encrypt_with_stream_cipher`: initialize with the
key and `nonce[..8]`, prepend the 8 nonce bytes, XOR the data with the
keystream byte-by-byte. -/
def encrypt_with_stream_cipher (c : CompactStreamCipher)
    (data key nonce : List Nat) : List Nat × CompactStreamCipher :=
  let r := xorKeystream (c.init key (nonce.take 8)) data
  (nonce.take 8 ++ r.1, r.2)

/-! ## Block Cipher Engine A (`SymmetricEncryptionEngine`, AES-shaped SPN) -/

/-- `initialize_substitution_table`: the deterministic byte transform
`v = i*17; v ^= v>>4; v ^= 0x63; v = rotl(v,1) ^ rotl(v,3)` (all on `u8`). -/
def substitution_table (i : Nat) : Nat :=
  let v := (i % 256) * 17 % 256
  let v := v ^^^ (v >>> 4)
  let v := v ^^^ 0x63
  rotl8 v 1 ^^^ rotl8 v 3

/-- `substitute_word`: substitute each of the four big-endian bytes. -/
def substitute_word (w : Nat) : Nat :=
  beWordAt ((beBytes4 w).map substitution_table) 0

/-- `round_constant`: `rcon[round % 10] << 24`. -/
def round_constant (round : Nat) : Nat :=
  let rcon := [0x01, 0x02, 0x04, 0x08, 0x10, 0x20, 0x40, 0x80, 0x1B, 0x36]
  (rcon.getD (round % 10) 0) <<< 24

/-- The first four of the eight key words of `setup_key_schedule` (only
words 0–3 are ever read: `round_keys[0][i] = key_words[i]` for `i < 4`).
A word is loaded big-endian only where the master key is long enough. -/
def keyWords (masterKey : List Nat) : List Nat :=
  (List.range 8).map (fun i =>
    if i * 4 + 3 < masterKey.length then beWordAt masterKey (i * 4) else 0)

/-- One round-key row from the previous row: `temp` is always the previous
row's word 3, transformed (rotate, substitute, round constant) only for
word 0 — exactly the loop body of `setup_key_schedule`. -/
def nextRoundKeyRow (prev : List Nat) (round : Nat) : List Nat :=
  (List.range 4).map (fun i =>
    let temp0 := prev.getD 3 0
    let temp := if i = 0 then substitute_word (rotl32 temp0 8) ^^^ round_constant round
      else temp0
    prev.getD i 0 ^^^ temp)

/-- Row `round` of the 15-row round-key schedule. -/
def roundKeyRow (masterKey : List Nat) : Nat → List Nat
  | 0 => (keyWords masterKey).take 4
  | n + 1 => nextRoundKeyRow (roundKeyRow masterKey n) (n + 1)

/-- `shift_rows` index map: byte `(i, j)` of the 4×4 state comes from
`(i, (j + i) % 4)` — row `r` cyclically shifted left by `r`. -/
def shiftRowsIdx (k : Nat) : Nat :=
  4 * (k / 4) + (k % 4 + k / 4) % 4

/-- `galois_multiply`: 8-step GF(2^8) multiply with polynomial `0x1B`. -/
def galoisMulAux : Nat → Nat → Nat → Nat → Nat
  | 0, _, _, acc => acc
  | n + 1, a, b, acc =>
    let acc' := if b &&& 1 ≠ 0 then acc ^^^ a else acc
    let a' := if a &&& 0x80 ≠ 0 then (a <<< 1) % 256 ^^^ 0x1B else (a <<< 1) % 256
    galoisMulAux n a' (b >>> 1) acc'

/-- `SymmetricEncryptionEngine::galois_multiply`. -/
def galois_multiply (a b : Nat) : Nat :=
  galoisMulAux 8 a b 0

/-- The `mix_columns` matrix `[[2,3,1,1],[1,2,3,1],[1,1,2,3],[3,1,1,2]]`. -/
def mix_columns_matrix : List (List Nat) :=
  [[2, 3, 1, 1], [1, 2, 3, 1], [1, 1, 2, 3], [3, 1, 1, 2]]

/-- `mix_columns` on the flat 16-byte state (byte `k` is `state[k/4][k%4]`,
columns are fixed `k % 4`). -/
def mixColumns (st : List Nat) : List Nat :=
  (List.range 16).map (fun k =>
    let row := k / 4
    let col := k % 4
    (List.range 4).foldl
      (fun acc i =>
        acc ^^^ galois_multiply ((mix_columns_matrix.getD row []).getD i 0)
          (st.getD (4 * i + col) 0)) 0)

/-- `substitute_bytes`. -/
def subBytes (st : List Nat) : List Nat :=
  st.map substitution_table

/-- `shift_rows` as a permutation of the flat state. -/
def shiftRows (st : List Nat) : List Nat :=
  (List.range 16).map (fun k => st.getD (shiftRowsIdx k) 0)

/-- `add_round_key`: XOR byte `(i, j)` with byte `j` (big-endian) of round
key word `i`. -/
def addRoundKey (masterKey : List Nat) (round : Nat) (st : List Nat) : List Nat :=
  (List.range 16).map (fun k =>
    st.getD k 0 ^^^ (beBytes4 ((roundKeyRow masterKey round).getD (k / 4) 0)).getD (k % 4) 0)

/-- `SymmetricEncryptionEngine::encrypt_block` with the schedule derived
from `masterKey` (as installed by `set_patient_key`): initial key addition,
13 full rounds, final round without `mix_columns`. -/
def encrypt_block (masterKey : List Nat) (plaintext : List Nat) : List Nat :=
  let st := addRoundKey masterKey 0 (plaintext.take 16)
  let st := (List.range' 1 13).foldl
    (fun st round => addRoundKey masterKey round (mixColumns (shiftRows (subBytes st)))) st
  addRoundKey masterKey 14 (shiftRows (subBytes st))

/-- The padding of `encrypt_with_block_cipher`: extend with
`padding_needed` copies of `padding_needed as u8` unless the length is
already a multiple of 16 (in which case nothing is added). -/
def medicalPad (data : List Nat) : List Nat :=
  let pn := 16 - data.length % 16
  if pn ≠ 16 then data ++ List.replicate pn (pn % 256) else data

/-- The 16-byte chunks of a byte list (`data.chunks(16)`). -/
def chunks16 (l : List Nat) : List (List Nat) :=
  if _h : l = [] then [] else l.take 16 :: chunks16 (l.drop 16)
termination_by l.length
decreasing_by
  simp [List.length_drop]
  cases l with
  | nil => simp_all
  | cons a t => simp

/-- The CBC loop of `encrypt_with_block_cipher`: each chunk is
zero-extended to 16 bytes, XORed with the previous ciphertext block, and
encrypted; the ciphertext blocks are concatenated. -/
def cbcGo (masterKey : List Nat) (prev : List Nat) : List (List Nat) → List Nat
  | [] => []
  | ch :: rest =>
    let blk := (List.range 16).map (fun i => ch.getD i 0 ^^^ prev.getD i 0)
    let enc := encrypt_block masterKey blk
    enc ++ cbcGo masterKey enc rest

/-- `MedicalSecurityModule::encrypt_with_block_cipher`: pad, prepend the
IV, CBC-encrypt the chunks seeded with the IV. -/
def encrypt_with_block_cipher (masterKey : List Nat) (data iv : List Nat) : List Nat :=
  iv ++ cbcGo masterKey iv (chunks16 (medicalPad data))

/-! ## Session Registry (`MedicalSecurityModule`) -/

/-- `DeviceContext`: one device session. Ids and keys are byte lists. -/
structure DeviceContext where
  device_id : List Nat
  patient_key : List Nat
  session_state : List Nat
  last_heartbeat : Nat
  encryption_counter : Nat
deriving DecidableEq

/-- `HashMap::get` on the registry modelled as an association list. -/
def lookupDevice : List (List Nat × DeviceContext) → List Nat → Option DeviceContext
  | [], _ => none
  | (k, v) :: rest, key => if k = key then some v else lookupDevice rest key

/-- `HashMap::insert` (replace an existing binding, else append). -/
def insertDevice : List (List Nat × DeviceContext) → List Nat → DeviceContext →
    List (List Nat × DeviceContext)
  | [], key, v => [(key, v)]
  | (k, v') :: rest, key, v =>
    if k = key then (key, v) :: rest else (k, v') :: insertDevice rest key v

/-- The mutable state of `MedicalSecurityModule`: the registry, the master
key last loaded into the block engine (`set_patient_key` — the schedule is
a pure function of it), the stream cipher state, and the KDF fields. -/
structure ModuleState where
  registry : List (List Nat × DeviceContext)
  engine_key : List Nat
  stream_cipher : CompactStreamCipher
  kdf_salt : List Nat
  kdf_iterations : Nat
deriving DecidableEq

/-- `MedicalSecurityModule::register_medical_device` (`ts` is the injected
clock value): reject device ids whose length differs from 12 before any
mutation; otherwise derive the patient key, build a fresh context (zero IV,
zero counter) and insert it. The function returns the call result paired
with the post-call module state. -/
def register_medical_device (st : ModuleState) (device_id patient_id : List Nat)
    (ts : Nat) : Except String (List Nat) × ModuleState :=
  if device_id.length ≠ 12 then (.error "Invalid device ID length", st)
  else
    let key := derive_patient_key st.kdf_salt st.kdf_iterations device_id patient_id
    let ctx : DeviceContext := ⟨device_id, key, List.replicate 16 0, ts, 0⟩
    (.ok key, { st with registry := insertDevice st.registry device_id ctx })

/-- `MedicalSecurityModule::generate_device_iv` (`ts` is the injected clock
value): device-id bytes in positions 0–11, the low four big-endian counter
bytes in positions 12–15, and the little-endian timestamp bytes XORed into
positions 0–7. -/
def generate_device_iv (ctx : DeviceContext) (ts : Nat) : List Nat :=
  List.ofFn (fun j : Fin 16 =>
    let i := (j : Nat)
    if i < 8 then ctx.device_id.getD i 0 ^^^ (ts >>> (i * 8)) % 256
    else if i < 12 then ctx.device_id.getD i 0
    else ctx.encryption_counter / 2 ^ ((15 - i) * 8) % 256)

/-- `MedicalSecurityModule::encrypt_patient_data` (`tsIv`, `tsHb` are the
two clock reads): fail before any mutation when the device is unknown;
otherwise load the patient key into the engine, derive the IV, take the
block-cipher path for payloads of at most 16 bytes and the stream-cipher
path otherwise, then advance the counter, refresh the heartbeat and store
the IV. -/
def encrypt_patient_data (st : ModuleState) (device_id data : List Nat)
    (tsIv tsHb : Nat) : Except String (List Nat) × ModuleState :=
  match lookupDevice st.registry device_id with
  | none => (.error "Device not registered", st)
  | some ctx =>
    let iv := generate_device_iv ctx tsIv
    let encC :=
      if data.length ≤ 16 then
        (encrypt_with_block_cipher ctx.patient_key data iv, st.stream_cipher)
      else
        encrypt_with_stream_cipher st.stream_cipher data ctx.patient_key iv
    let ctx' : DeviceContext :=
      { ctx with
        encryption_counter := (ctx.encryption_counter + 1) % 2 ^ 64,
        last_heartbeat := tsHb,
        session_state := iv }
    (.ok encC.1,
     { st with
       registry := insertDevice st.registry device_id ctx',
       engine_key := ctx.patient_key,
       stream_cipher := encC.2 })

/-- A concrete 12-byte device id for concrete instantiations. -/
def demoDeviceId : List Nat := List.replicate 12 65

/-- A concrete registered device session. -/
def demoContext : DeviceContext :=
  ⟨demoDeviceId, List.replicate 32 7, List.replicate 16 0, 0, 0⟩

/-- A concrete module state with one registered device. -/
def demoState : ModuleState :=
  ⟨[(demoDeviceId, demoContext)], [], CompactStreamCipher.new,
   List.replicate 16 0, 1000⟩

end MedCrypto

namespace MathFramework

/-- The operation tags of `ComputationalOperation`. -/
inductive ComputationalOperation where
  | LargeIntegerArithmetic
  | PolynomialFieldComputation
  | MatrixLinearTransformation
  | DigestComputationEngine
  | KoreanMathematicalOperations
  | RegionalComputationalAlgorithms
deriving DecidableEq

/-- `SecurityLevel`. -/
inductive SecurityLevel where
  | Standard
  | Enhanced
  | Maximum
  | Enterprise
deriving DecidableEq

/-- `PerformanceMode`. -/
inductive PerformanceMode where
  | Sequential
  | Parallel
  | Distributed
deriving DecidableEq

/-- `ComputationContext` (payload bytes, security level, performance mode,
compliance tag strings). -/
structure ComputationContext where
  data : List Nat
  security_level : SecurityLevel
  performance_mode : PerformanceMode
  compliance_requirements : List String
deriving DecidableEq

/-- `AdvancedMathematicalFramework::build_computation_pipeline`: the two
public-key stages for Enhanced/Maximum/Enterprise; always the matrix
(block-cipher) stage; the two Korean-profile cipher stages when the
compliance tags contain `"korean_standards"`; always the digest stage
last. -/
def build_computation_pipeline (ctx : ComputationContext) :
    List ComputationalOperation :=
  let p := match ctx.security_level with
    | .Enhanced | .Maximum | .Enterprise =>
      [ComputationalOperation.LargeIntegerArithmetic,
       ComputationalOperation.PolynomialFieldComputation]
    | _ => []
  let p := p ++ [ComputationalOperation.MatrixLinearTransformation]
  let p := if ctx.compliance_requirements.contains "korean_standards" then
      p ++ [ComputationalOperation.KoreanMathematicalOperations,
            ComputationalOperation.RegionalComputationalAlgorithms]
    else p
  p ++ [ComputationalOperation.DigestComputationEngine]

/-! ## Block Cipher Engine C (`RegionalComputationalEngine`, regional SPN) -/

/-- `apply_regional_sbox_1`: `b ↦ (b*7 + 11) % 256`. -/
def apply_regional_sbox_1 (st : List Nat) : List Nat :=
  st.map (fun b => (b * 7 + 11) % 256)

/-- `apply_regional_sbox_2`: `b ↦ (b*13 + 23) % 256`. -/
def apply_regional_sbox_2 (st : List Nat) : List Nat :=
  st.map (fun b => (b * 13 + 23) % 256)

/-- `RegionalComputationalEngine::apply_regional_diffusion`: every output
byte is computed from the state as it was before the pass (the Rust code
collects the mapped bytes into a fresh `temp` vector and only then copies
it back over the state). -/
def apply_regional_diffusion (st : List Nat) : List Nat :=
  (List.range st.length).map (fun i =>
    st.getD i 0 ^^^ st.getD ((i + 1) % st.length) 0 ^^^ st.getD ((i + 2) % st.length) 0)

/-- The same diffusion formula applied by mutating the state in place, one
byte at a time — the behaviour the specification explicitly rules out.
Modelled from the spec's contrast clause ("not in place") to witness that
the two differ. -/
def regional_diffusion_in_place (st : List Nat) : List Nat :=
  (List.range st.length).foldl
    (fun s i =>
      s.set i (s.getD i 0 ^^^ s.getD ((i + 1) % s.length) 0 ^^^ s.getD ((i + 2) % s.length) 0))
    st

/-- `RegionalComputationalEngine::add_round_key`:
`state[i] ^= key[i % key.len()] ^ (round as u8)`. -/
def regional_add_round_key (st key : List Nat) (round : Nat) : List Nat :=
  (List.range st.length).map (fun i =>
    st.getD i 0 ^^^ (key.getD (i % key.length) 0 ^^^ round % 256))

/-- `RegionalComputationalEngine::process_regional_block`: initial key
addition, 11 main rounds (odd rounds S-box 1, even rounds S-box 2, then
diffusion and key addition), final S-box 1 and key addition with round 12. -/
def process_regional_block (block key : List Nat) : List Nat :=
  let st := regional_add_round_key block key 0
  let st := (List.range' 1 11).foldl
    (fun st round =>
      let st := if round % 2 = 1 then apply_regional_sbox_1 st else apply_regional_sbox_2 st
      regional_add_round_key (apply_regional_diffusion st) key round) st
  regional_add_round_key (apply_regional_sbox_1 st) key 12

end MathFramework

/-! ## Helper lemmas -/

namespace MedCrypto

theorem digestOf_length (st : List Nat) : (digestOf st).length = 20 := by
  simp [digestOf, beBytes4]

theorem finalize_length (h : MedicalHashProcessor) : h.finalize.length = 20 := by
  simp only [MedicalHashProcessor.finalize]
  exact digestOf_length _

theorem getD_range_map {α : Type} (n i : Nat) (f : Nat → α) (d : α) (h : i < n) :
    ((List.range n).map f).getD i d = f i := by
  simp [List.getD_eq_getElem?_getD, List.getElem?_map, List.getElem?_range, h]

theorem getD_ofFn {α : Type} {n : Nat} (f : Fin n → α) (i : Nat) (d : α) (h : i < n) :
    (List.ofFn f).getD i d = f ⟨i, h⟩ := by
  simp [List.getD_eq_getElem?_getD, List.getElem?_ofFn, List.ofFnNthVal, h]

theorem kdfExtendLoop_length (n : Nat) :
    ∀ i input, 32 - i ≤ n → (kdfExtendLoop input i).length = 32 - i := by
  induction n with
  | zero =>
    intro i input hle
    unfold kdfExtendLoop
    rw [dif_neg (by omega)]
    simp only [List.length_nil]
    omega
  | succ n ih =>
    intro i input hle
    unfold kdfExtendLoop
    by_cases hi : i < 32
    · rw [dif_pos hi]
      have hdig := finalize_length ((MedicalHashProcessor.reset.update input).update [i % 256])
      have hrec := ih (i + 20) input (by omega)
      simp only [List.length_append, List.length_take, hdig, hrec]
      omega
    · rw [dif_neg hi]
      simp only [List.length_nil]
      omega

theorem derive_patient_key_length (salt : List Nat) (iteration_count : Nat)
    (device_id patient_id : List Nat) :
    (derive_patient_key salt iteration_count device_id patient_id).length = 32 := by
  unfold derive_patient_key
  set input := kdfIterate iteration_count (salt ++ device_id ++ patient_id) with hinput
  by_cases h : 32 ≤ input.length
  · rw [if_pos h]
    simp [List.length_take]
    omega
  · rw [if_neg h]
    have := kdfExtendLoop_length 32 input.length input (by omega)
    simp only [List.length_append, this]
    omega

theorem lookupDevice_insert (reg : List (List Nat × DeviceContext))
    (key : List Nat) (v : DeviceContext) :
    lookupDevice (insertDevice reg key v) key = some v := by
  induction reg with
  | nil => simp [insertDevice, lookupDevice]
  | cons p rest ih =>
    obtain ⟨k, v'⟩ := p
    by_cases hk : k = key
    · simp [insertDevice, lookupDevice, hk]
    · simp [insertDevice, lookupDevice, hk, ih]

theorem xorKeystream_fst_length (m : List Nat) :
    ∀ c : CompactStreamCipher, (xorKeystream c m).1.length = m.length := by
  induction m with
  | nil => intro c; simp [xorKeystream]
  | cons b rest ih => intro c; simp [xorKeystream, ih]

theorem xorKeystream_self_inverse (m : List Nat) :
    ∀ c : CompactStreamCipher, (xorKeystream c (xorKeystream c m).1).1 = m := by
  induction m with
  | nil => intro c; simp [xorKeystream]
  | cons b rest ih =>
    intro c
    have hx : b ^^^ (c.nextByte.1) ^^^ (c.nextByte.1) = b := by
      rw [Nat.xor_assoc, Nat.xor_self, Nat.xor_zero]
    simp only [xorKeystream, hx, ih]

theorem init_state_key_determined (c1 c2 : CompactStreamCipher) (k iv : List Nat)
    (hk : k.length = 32) (hiv : 8 ≤ iv.length) :
    (c1.init k iv).internal_state = (c2.init k iv).internal_state := by
  simp only [CompactStreamCipher.init]
  congr 1
  funext j
  fin_cases j <;> simp [hk, hiv]

theorem nextByte_of_full (cA cB : CompactStreamCipher)
    (hst : cA.internal_state = cB.internal_state)
    (hA : 64 ≤ cA.buffer_position) (hB : 64 ≤ cB.buffer_position) :
    cA.nextByte = cB.nextByte := by
  unfold CompactStreamCipher.nextByte CompactStreamCipher.generateBlock
  rw [if_pos hA, if_pos hB]
  simp [hst]

theorem xorKeystream_fst_congr (cA cB : CompactStreamCipher)
    (h : cA.nextByte = cB.nextByte) (l : List Nat) :
    (xorKeystream cA l).1 = (xorKeystream cB l).1 := by
  cases l with
  | nil => rfl
  | cons b rest => simp only [xorKeystream, h]

theorem generate_device_iv_byte15 (ctx : DeviceContext) (ts : Nat) :
    (generate_device_iv ctx ts).getD 15 0 = ctx.encryption_counter % 256 := by
  simp [generate_device_iv, List.getD_eq_getElem?_getD, List.getElem?_ofFn,
    List.ofFnNthVal]

end MedCrypto

/-! ## Claim theorems -/

open MedCrypto MathFramework

/-- C1: the spec states that salt initialization succeeds on every call,
fitting the engine constant into the 16-byte salt field with no
out-of-bounds access. The code's constant `b"MedicalDeviceSalt"` is 17
bytes long, so `self.salt[..base_salt.len()]` is an out-of-bounds slice of
the 16-byte field: `initialize_salt` panics (modelled as `none`) on every
16-byte salt field, inside every `MedicalSecurityModule::new()`. -/
theorem salt_initialization_panics (salt : List Nat) (h : salt.length = 16) :
    init_salt salt = none ∧ base_salt.length = 17 := by
  have hb : base_salt.length = 17 := by decide
  refine ⟨?_, hb⟩
  unfold init_salt
  rw [if_neg (by omega)]

/-- Witness for C1 at the concrete zeroed 16-byte salt field installed by
`KeyDerivationFunction::new`. -/
theorem salt_initialization_panics_witness :
    (List.replicate 16 0 : List Nat).length = 16 ∧
      init_salt (List.replicate 16 0) = none := by
  exact ⟨by decide, (salt_initialization_panics (List.replicate 16 0) (by decide)).1⟩

/-- C4: `build_computation_pipeline` returns exactly the two public-key
stages iff the level is Enhanced/Maximum/Enterprise, then the matrix stage,
then the two Korean-profile stages iff the compliance tags contain
`"korean_standards"`, then the digest stage last; in particular Standard
with no tags gives the 2-stage pipeline and Enterprise with the regional
tag gives the 6-stage pipeline. -/
theorem build_pipeline_exact_order (ctx : ComputationContext) :
    build_computation_pipeline ctx =
      (if ctx.security_level = SecurityLevel.Enhanced ∨
          ctx.security_level = SecurityLevel.Maximum ∨
          ctx.security_level = SecurityLevel.Enterprise then
        [ComputationalOperation.LargeIntegerArithmetic,
         ComputationalOperation.PolynomialFieldComputation] else []) ++
      [ComputationalOperation.MatrixLinearTransformation] ++
      (if ctx.compliance_requirements.contains "korean_standards" then
        [ComputationalOperation.KoreanMathematicalOperations,
         ComputationalOperation.RegionalComputationalAlgorithms] else []) ++
      [ComputationalOperation.DigestComputationEngine] ∧
    (∀ d pm, build_computation_pipeline ⟨d, SecurityLevel.Standard, pm, []⟩ =
      [ComputationalOperation.MatrixLinearTransformation,
       ComputationalOperation.DigestComputationEngine]) ∧
    (∀ d pm, build_computation_pipeline
        ⟨d, SecurityLevel.Enterprise, pm, ["korean_standards"]⟩ =
      [ComputationalOperation.LargeIntegerArithmetic,
       ComputationalOperation.PolynomialFieldComputation,
       ComputationalOperation.MatrixLinearTransformation,
       ComputationalOperation.KoreanMathematicalOperations,
       ComputationalOperation.RegionalComputationalAlgorithms,
       ComputationalOperation.DigestComputationEngine]) := by
  refine ⟨?_, fun d pm => by simp [build_computation_pipeline],
    fun d pm => by simp [build_computation_pipeline]⟩
  obtain ⟨d, lvl, pm, tags⟩ := ctx
  cases lvl <;> by_cases htag : "korean_standards" ∈ tags <;>
    simp [build_computation_pipeline, htag]

/-- C9: in the regional SPN, every diffusion output byte is
`state[i] xor state[(i+1) mod n] xor state[(i+2) mod n]` with all operands
read from the unmodified pre-diffusion state; the in-place variant (reading
bytes already rewritten during the pass) genuinely differs on a concrete
state, so the distinction is meaningful. -/
theorem regional_diffusion_snapshot (st : List Nat) (i : Nat) (h : i < st.length) :
    (apply_regional_diffusion st).getD i 0 =
      st.getD i 0 ^^^ st.getD ((i + 1) % st.length) 0 ^^^
        st.getD ((i + 2) % st.length) 0 ∧
    apply_regional_diffusion [1, 2, 3, 0, 0, 0, 0, 0, 0, 0, 0, 0, 0, 0, 0, 0] ≠
      regional_diffusion_in_place [1, 2, 3, 0, 0, 0, 0, 0, 0, 0, 0, 0, 0, 0, 0, 0] := by
  constructor
  · unfold apply_regional_diffusion
    rw [getD_range_map _ _ _ _ h]
  · decide

/-- C2 counterexample: the claim says the extra-compression branch of
`finalize` is taken for precisely those leftover-buffer lengths where the
`0x80` byte does not fit. After absorbing a 56-byte message the leftover
buffer holds 56 bytes, the appended `0x80` byte fits in the current 64-byte
block (position 56, total 57 ≤ 64), yet the branch is taken. -/
theorem finalize_branch_taken_although_byte_fits :
    finalizeExtraCompression
        (MedicalHashProcessor.reset.update (List.replicate 56 0)) = true ∧
      ((MedicalHashProcessor.reset.update (List.replicate 56 0)).buffer ++
          [0x80]).length ≤ 64 := by
  constructor
  · decide
  · decide

/-- C2 amended: `finalize` appends a single `0x80` byte, zero-pads the
buffer to 56 bytes, writes the 64-bit bit length big-endian into the final
8 bytes, runs a last compression and returns the 5 state words
concatenated big-endian as a 20-byte digest; the extra compression before
that padding is forced exactly when the leftover buffer length is at least
56 — i.e. when the 8 length bytes (not the `0x80` byte, which always fits)
would not fit after the `0x80` byte in the current block. -/
theorem hash_finalize_characterization (h : MedicalHashProcessor)
    (hbuf : h.buffer.length < 64) :
    h.finalize =
      (if 56 ≤ h.buffer.length then
        digestOf (processBlock
          (processBlock h.state
            (h.buffer ++ [0x80] ++ List.replicate (63 - h.buffer.length) 0))
          (List.replicate 56 0 ++ beBytes8 ((h.message_length * 8) % 2 ^ 64)))
      else
        digestOf (processBlock h.state
          (h.buffer ++ [0x80] ++ List.replicate (55 - h.buffer.length) 0 ++
            beBytes8 ((h.message_length * 8) % 2 ^ 64)))) ∧
    h.finalize.length = 20 ∧
    (finalizeExtraCompression h = true ↔ 56 ≤ h.buffer.length) := by
  have hb : (finalizeExtraCompression h = true) ↔ 56 ≤ h.buffer.length := by
    simp only [finalizeExtraCompression, List.length_append, List.length_cons,
      List.length_nil, decide_eq_true_eq]
    omega
  refine ⟨?_, finalize_length h, hb⟩
  by_cases hc : 56 ≤ h.buffer.length
  · have hbt : finalizeExtraCompression h = true := hb.mpr hc
    rw [if_pos hc]
    simp only [MedicalHashProcessor.finalize, hbt, if_true]
    have hrep : 64 - (h.buffer ++ [0x80]).length = 63 - h.buffer.length := by
      simp only [List.length_append, List.length_cons, List.length_nil]
      omega
    rw [hrep]
    simp [List.append_assoc]
  · have hbf : finalizeExtraCompression h = false := by
      rw [Bool.eq_false_iff]
      intro hcontra
      exact hc (hb.mp hcontra)
    rw [if_neg hc]
    simp only [MedicalHashProcessor.finalize, hbf, Bool.false_eq_true, if_false]
    have hrep : 56 - (h.buffer ++ [0x80]).length = 55 - h.buffer.length := by
      simp only [List.length_append, List.length_cons, List.length_nil]
      omega
    rw [hrep]

/-- Witness for C2's amended theorem at the freshly reset processor. -/
theorem hash_finalize_characterization_witness :
    MedicalHashProcessor.reset.buffer.length < 64 ∧
      MedicalHashProcessor.reset.finalize.length = 20 :=
  ⟨by decide,
   (hash_finalize_characterization MedicalHashProcessor.reset (by decide)).2.1⟩

/-- C5: `encrypt_patient_data` on an unregistered device id fails with the
not-registered error and `register_medical_device` with a device id whose
length differs from 12 fails with the invalid-input error; in both cases
the returned module state is exactly the pre-call state — no registry
entry, counter, IV, key, engine key or stream-cipher state is created or
mutated. -/
theorem failure_paths_commit_no_state (st : ModuleState)
    (device_id patient_id unknown_id data : List Nat) (ts tsIv tsHb : Nat)
    (hlen : device_id.length ≠ 12)
    (hlook : lookupDevice st.registry unknown_id = none) :
    register_medical_device st device_id patient_id ts =
      (Except.error "Invalid device ID length", st) ∧
    encrypt_patient_data st unknown_id data tsIv tsHb =
      (Except.error "Device not registered", st) := by
  constructor
  · simp [register_medical_device, hlen]
  · simp [encrypt_patient_data, hlook]

/-- Witness for C5 on an empty registry with a 3-byte device id. -/
theorem failure_paths_commit_no_state_witness :
    ([1, 2, 3] : List Nat).length ≠ 12 ∧
      lookupDevice (⟨[], [], CompactStreamCipher.new, List.replicate 16 0,
          1000⟩ : ModuleState).registry [9] = none ∧
      register_medical_device
          ⟨[], [], CompactStreamCipher.new, List.replicate 16 0, 1000⟩
          [1, 2, 3] [7] 5 =
        (Except.error "Invalid device ID length",
         ⟨[], [], CompactStreamCipher.new, List.replicate 16 0, 1000⟩) := by
  refine ⟨by decide, by decide, ?_⟩
  exact (failure_paths_commit_no_state
    ⟨[], [], CompactStreamCipher.new, List.replicate 16 0, 1000⟩
    [1, 2, 3] [7] [9] [4] 5 5 5 (by decide) (by decide)).1

/-- C10: for a registered device, `encrypt_patient_data` on the empty
payload takes the block-cipher path and returns exactly the 16-byte
derived IV with zero ciphertext blocks appended (the padding rule adds
nothing when the length is a multiple of 16, so nothing is encrypted),
while the stored session still advances its counter and overwrites the
stored IV with the derived one. -/
theorem encrypt_empty_payload_returns_iv (st : ModuleState)
    (device_id : List Nat) (ctx : DeviceContext) (tsIv tsHb : Nat)
    (hlook : lookupDevice st.registry device_id = some ctx) :
    encrypt_patient_data st device_id [] tsIv tsHb =
      (Except.ok (generate_device_iv ctx tsIv),
       { st with
         registry := insertDevice st.registry device_id
           { ctx with
             encryption_counter := (ctx.encryption_counter + 1) % 2 ^ 64,
             last_heartbeat := tsHb,
             session_state := generate_device_iv ctx tsIv },
         engine_key := ctx.patient_key }) ∧
    (generate_device_iv ctx tsIv).length = 16 ∧
    lookupDevice
        (encrypt_patient_data st device_id [] tsIv tsHb).2.registry device_id =
      some { ctx with
             encryption_counter := (ctx.encryption_counter + 1) % 2 ^ 64,
             last_heartbeat := tsHb,
             session_state := generate_device_iv ctx tsIv } := by
  have hpad : medicalPad [] = [] := by decide
  have hchunks : chunks16 [] = [] := by
    unfold chunks16
    simp
  have hblock : ∀ key iv : List Nat, encrypt_with_block_cipher key [] iv = iv := by
    intro key iv
    unfold encrypt_with_block_cipher
    rw [hpad, hchunks]
    simp [cbcGo]
  have hmain : encrypt_patient_data st device_id [] tsIv tsHb =
      (Except.ok (generate_device_iv ctx tsIv),
       { st with
         registry := insertDevice st.registry device_id
           { ctx with
             encryption_counter := (ctx.encryption_counter + 1) % 2 ^ 64,
             last_heartbeat := tsHb,
             session_state := generate_device_iv ctx tsIv },
         engine_key := ctx.patient_key }) := by
    simp [encrypt_patient_data, hlook, hblock]
  refine ⟨hmain, ?_, ?_⟩
  · simp [generate_device_iv]
  · rw [hmain]
    exact lookupDevice_insert _ _ _

/-- Witness for C10 at the concrete registered demo device. -/
theorem encrypt_empty_payload_returns_iv_witness :
    lookupDevice demoState.registry demoDeviceId = some demoContext ∧
      (generate_device_iv demoContext 5).length = 16 := by
  exact ⟨by decide,
    (encrypt_empty_payload_returns_iv demoState demoDeviceId demoContext 5 6
      (by decide)).2.1⟩

/-- C3: for a registered device, each successful `encrypt_patient_data`
call stores the session back with the counter strictly increased by 1 (the
`u64` increment, below its wrap bound), and the IVs derived by two
consecutive calls differ for all timestamps: the big-endian low counter
bytes sit at positions 12–15 of the IV and the timestamp mixing touches
only positions 0–7, so byte 15 changes from `c % 256` to `(c+1) % 256`. -/
theorem encrypt_counter_increases_iv_differs (st : ModuleState)
    (device_id data : List Nat) (ctx : DeviceContext) (ts1 ts2 : Nat)
    (hlook : lookupDevice st.registry device_id = some ctx)
    (hc : ctx.encryption_counter + 1 < 2 ^ 64) :
    lookupDevice (encrypt_patient_data st device_id data ts1 ts2).2.registry
        device_id =
      some { ctx with
             encryption_counter := ctx.encryption_counter + 1,
             last_heartbeat := ts2,
             session_state := generate_device_iv ctx ts1 } ∧
    (∃ out, (encrypt_patient_data st device_id data ts1 ts2).1 =
      Except.ok out) ∧
    (∀ tsA tsB, generate_device_iv ctx tsA ≠
      generate_device_iv
        { ctx with
          encryption_counter := ctx.encryption_counter + 1,
          last_heartbeat := ts2,
          session_state := generate_device_iv ctx ts1 } tsB) := by
  have hmod : (ctx.encryption_counter + 1) % 2 ^ 64 = ctx.encryption_counter + 1 :=
    Nat.mod_eq_of_lt hc
  refine ⟨?_, ?_, ?_⟩
  · simp only [encrypt_patient_data, hlook, hmod]
    exact lookupDevice_insert _ _ _
  · refine ⟨(if data.length ≤ 16 then
        (encrypt_with_block_cipher ctx.patient_key data (generate_device_iv ctx ts1),
         st.stream_cipher)
      else
        encrypt_with_stream_cipher st.stream_cipher data ctx.patient_key
          (generate_device_iv ctx ts1)).1, ?_⟩
    simp only [encrypt_patient_data, hlook]
  · intro tsA tsB hEq
    have h15 : (generate_device_iv ctx tsA).getD 15 0 =
        (generate_device_iv
          { ctx with
            encryption_counter := ctx.encryption_counter + 1,
            last_heartbeat := ts2,
            session_state := generate_device_iv ctx ts1 } tsB).getD 15 0 := by
      rw [hEq]
    rw [generate_device_iv_byte15, generate_device_iv_byte15] at h15
    simp at h15
    omega

/-- Witness for C3 at the concrete registered demo device. -/
theorem encrypt_counter_increases_iv_differs_witness :
    lookupDevice demoState.registry demoDeviceId = some demoContext ∧
      demoContext.encryption_counter + 1 < 2 ^ 64 ∧
      lookupDevice
          (encrypt_patient_data demoState demoDeviceId [3] 5 6).2.registry
          demoDeviceId =
        some { demoContext with
               encryption_counter := demoContext.encryption_counter + 1,
               last_heartbeat := 6,
               session_state := generate_device_iv demoContext 5 } := by
  refine ⟨by decide, by decide, ?_⟩
  exact (encrypt_counter_increases_iv_differs demoState demoDeviceId [3]
    demoContext 5 6 (by decide) (by decide)).1

/-- C6: the stream cipher is deterministic — re-initializing any two cipher
states with the same 32-byte key and 8-byte nonce yields the identical
keystream byte sequence — and the XOR encryption is self-inverse:
encrypting the encryption (dropping the prepended 8-byte nonce between
passes and at the end) returns the original message. -/
theorem stream_cipher_deterministic_and_xor_involutive
    (c1 c2 : CompactStreamCipher) (k iv m : List Nat)
    (hk : k.length = 32) (hiv : iv.length = 8) :
    (∀ n, keystream (c1.init k iv) n = keystream (c2.init k iv) n) ∧
    ((encrypt_with_stream_cipher c2
        ((encrypt_with_stream_cipher c1 m k iv).1.drop 8) k iv).1).drop 8 = m := by
  have h8 : 8 ≤ iv.length := by omega
  have hst := init_state_key_determined c1 c2 k iv hk h8
  have hpos1 : 64 ≤ (c1.init k iv).buffer_position := by
    simp [CompactStreamCipher.init]
  have hpos2 : 64 ≤ (c2.init k iv).buffer_position := by
    simp [CompactStreamCipher.init]
  have hnb := nextByte_of_full _ _ hst hpos1 hpos2
  constructor
  · intro n
    cases n with
    | zero => rfl
    | succ n => simp only [keystream, hnb]
  · have htake : iv.take 8 = iv := by
      conv_lhs => rw [← hiv]
      exact List.take_length iv
    have hdrop : ∀ X : List Nat, (iv ++ X).drop 8 = X := by
      intro X
      conv_lhs => rw [← hiv]
      exact List.drop_left iv X
    simp only [encrypt_with_stream_cipher, htake]
    rw [hdrop, hdrop]
    rw [xorKeystream_fst_congr _ _ (nextByte_of_full _ _ hst.symm hpos2 hpos1)]
    exact xorKeystream_self_inverse m _

/-- Witness for C6 with two different stale cipher states, the zero key and
zero nonce, and a 3-byte message. -/
theorem stream_cipher_deterministic_and_xor_involutive_witness :
    (List.replicate 32 (0 : Nat)).length = 32 ∧
      (List.replicate 8 (0 : Nat)).length = 8 ∧
      ((encrypt_with_stream_cipher ⟨List.replicate 16 1, List.replicate 64 9, 64⟩
          ((encrypt_with_stream_cipher CompactStreamCipher.new [1, 2, 3]
              (List.replicate 32 0) (List.replicate 8 0)).1.drop 8)
          (List.replicate 32 0) (List.replicate 8 0)).1).drop 8 = [1, 2, 3] := by
  refine ⟨by decide, by decide, ?_⟩
  exact (stream_cipher_deterministic_and_xor_involutive CompactStreamCipher.new
    ⟨List.replicate 16 1, List.replicate 64 9, 64⟩ (List.replicate 32 0)
    (List.replicate 8 0) [1, 2, 3] (by decide) (by decide)).2

/-- C7: for a registered device and a payload longer than 16 bytes,
`encrypt_patient_data` takes the stream-cipher path keyed with the session
key and the derived IV's low 8 bytes, and the ciphertext length is 8 (the
prepended nonce) plus the payload length. -/
theorem stream_path_output_length (st : ModuleState) (device_id data : List Nat)
    (ctx : DeviceContext) (ts1 ts2 : Nat)
    (hlook : lookupDevice st.registry device_id = some ctx)
    (hlen : 16 < data.length) :
    (encrypt_patient_data st device_id data ts1 ts2).1 =
      Except.ok (encrypt_with_stream_cipher st.stream_cipher data
        ctx.patient_key (generate_device_iv ctx ts1)).1 ∧
    ((encrypt_with_stream_cipher st.stream_cipher data ctx.patient_key
        (generate_device_iv ctx ts1)).1).length = 8 + data.length := by
  have hnle : ¬ data.length ≤ 16 := by omega
  constructor
  · simp only [encrypt_patient_data, hlook, hnle, if_false]
  · simp only [encrypt_with_stream_cipher]
    rw [List.length_append, List.length_take, xorKeystream_fst_length]
    simp [generate_device_iv]

/-- Witness for C7: a 70-byte payload on the demo device yields a 78-byte
ciphertext. -/
theorem stream_path_output_length_witness :
    lookupDevice demoState.registry demoDeviceId = some demoContext ∧
      16 < (List.replicate 70 (0 : Nat)).length ∧
      ((encrypt_with_stream_cipher demoState.stream_cipher
          (List.replicate 70 0) demoContext.patient_key
          (generate_device_iv demoContext 5)).1).length = 78 := by
  refine ⟨by decide, by decide, ?_⟩
  have h := (stream_path_output_length demoState demoDeviceId
    (List.replicate 70 0) demoContext 5 6 (by decide) (by decide)).2
  simpa using h

/-- C8: key derivation is deterministic — two runs on the same salt,
iteration count, device id and patient id are byte-identical — and the
output always has the requested 32-byte key size even though the
underlying digest is 20 bytes (the extension loop fills the rest). -/
theorem kdf_deterministic_and_output_length (salt : List Nat)
    (iteration_count : Nat) (device_id patient_id : List Nat) :
    derive_patient_key salt iteration_count device_id patient_id =
      derive_patient_key salt iteration_count device_id patient_id ∧
    (derive_patient_key salt iteration_count device_id patient_id).length = 32 ∧
    (medicalHash (salt ++ device_id ++ patient_id)).length = 20 := by
  refine ⟨rfl,
    derive_patient_key_length salt iteration_count device_id patient_id, ?_⟩
  unfold medicalHash
  exact finalize_length _

/-- Witness for C9 on a concrete 16-byte state and index. -/
theorem regional_diffusion_snapshot_witness :
    (2 : Nat) < ([5, 6, 7, 8] : List Nat).length ∧
      (apply_regional_diffusion [5, 6, 7, 8]).getD 2 0 =
        ([5, 6, 7, 8] : List Nat).getD 2 0 ^^^
          ([5, 6, 7, 8] : List Nat).getD ((2 + 1) % 4) 0 ^^^
          ([5, 6, 7, 8] : List Nat).getD ((2 + 2) % 4) 0 := by
  refine ⟨by decide, ?_⟩
  have := (regional_diffusion_snapshot [5, 6, 7, 8] 2 (by decide)).1
  simpa using this
